import Mathlib

/-!
Verification development for the log aggregation and summarization pipeline
of `azure_log_analytics.py`.

The embedding translates the pipeline functions of the source:
  * `on_event` (lines 59-67): per-record normalization from the raw record's
    attribute mapping; a missing key raises a key error naming the key.
  * `ingest_subscription_logs` (lines 55-72): consumes the whole delivered
    stream, appending each normalized record; an exception in the callback
    propagates (modelled as first-error abort of the traversal). The call to
    `receive` carries no time or item budget, so the function consumes
    everything it is given.
  * `process_log_data` (lines 75-103): pandas left merge of the event table
    with the resource directory on `ResourceId` (a relational join: one
    output row per matching pair, left rows without a match kept with null
    metadata, left order preserved), the derived `Category` column computed
    as `x.split('/')[0]`, and three `groupby(...).size()` summaries (pandas
    sorts group keys ascending and emits one row per distinct key).
  * `main` (lines 35-52): a single outer try/except around subscription
    ingestion and processing; the first raised error aborts the whole run
    and no result mapping is produced (modelled as `none`).

Machine integers do not occur; counts are `Nat`. Strings are Lean `String`.
Python dicts of the raw record are association lists looked up by key.
-/

/-- A normalized log event: one row of the per-subscription DataFrame built
by `ingest_subscription_logs` (columns TimeGenerated, ResourceId,
OperationName, Level, Message). -/
structure LogEvent where
  timeGenerated : String
  resourceId : String
  operationName : String
  level : String
  message : String
deriving DecidableEq

/-- One entry of the resource directory built from
`monitor_client.resources.list` (line 84): id, resource group, location,
tags. -/
structure ResourceMetadata where
  resourceId : String
  resourceGroup : String
  location : String
  tags : List (String × String)
deriving DecidableEq

/-- The metadata columns attached by the merge (ResourceGroup, Location,
Tags). -/
structure MetaCols where
  resourceGroup : String
  location : String
  tags : List (String × String)
deriving DecidableEq

/-- One row of the merged and categorized table `sub_df` after lines 86-89:
the original event columns, the (possibly null) metadata columns, and the
derived Category column. -/
structure EnrichedEvent where
  event : LogEvent
  meta : Option MetaCols
  category : String
deriving DecidableEq

/-- A raw streamed record: the annotation mapping of `event.message` plus
the body payload (line 65). -/
structure RawRecord where
  attrs : List (String × String)
  body : String
deriving DecidableEq

def timeKey : String := "microsoft.azure.monitor.metricValueTimeUTC"

def ridKey : String := "resourceId"

def opKey : String := "operationName"

def levelKey : String := "level"

/-- Python dict access `mapping[k]`: the value when present, otherwise a
KeyError carrying the missing key's name. -/
def getAttr (k : String) (r : RawRecord) : Except String String :=
  match r.attrs.lookup k with
  | some v => Except.ok v
  | none => Except.error k

/-- `on_event` (lines 59-67): builds the event row from the four annotation
keys and the UTF-8 body; any missing key raises before a row is appended. -/
def onEvent (r : RawRecord) : Except String LogEvent := do
  let t ← getAttr timeKey r
  let rid ← getAttr ridKey r
  let op ← getAttr opKey r
  let lv ← getAttr levelKey r
  Except.ok ⟨t, rid, op, lv, r.body⟩

/-- `ingest_subscription_logs` (lines 55-72): every delivered record is
normalized and appended in arrival order; an exception raised inside the
callback propagates, aborting the traversal. No budget parameter exists:
the whole delivered stream is consumed. -/
def ingestSubscriptionLogs (stream : List RawRecord) : Except String (List LogEvent) :=
  stream.mapM onEvent

/-- Python `str.split(sep)` on a character list: splits into the (always
nonempty) list of separator-free groups, keeping empty groups. -/
def pySplit (sep : Char) : List Char → List (List Char)
  | [] => [[]]
  | c :: cs =>
    if c = sep then [] :: pySplit sep cs
    else
      match pySplit sep cs with
      | [] => [[c]]
      | g :: gs => (c :: g) :: gs

/-- Line 89: `x.split('/')[0]` — the derived Category of an operation
name. -/
def categoryOf (s : String) : String :=
  String.mk ((pySplit '/' s.toList).headI)

def metaOf (r : ResourceMetadata) : MetaCols :=
  ⟨r.resourceGroup, r.location, r.tags⟩

/-- The rows the left merge (line 86) produces for one event: one row per
directory entry whose `ResourceId` matches, in directory order, or a single
row with null metadata when none matches. -/
def rowsFor (e : LogEvent) (dir : List ResourceMetadata) :
    List (LogEvent × Option MetaCols) :=
  let ms := dir.filter (fun r => r.resourceId == e.resourceId)
  if ms.isEmpty then [(e, none)]
  else ms.map (fun r => (e, some (metaOf r)))

/-- `sub_df.merge(resource_df, on='ResourceId', how='left')` (line 86):
left rows in order, each expanded by its matching directory entries. -/
def mergeLeft : List LogEvent → List ResourceMetadata → List (LogEvent × Option MetaCols)
  | [], _ => []
  | e :: es, dir => rowsFor e dir ++ mergeLeft es dir

def mkEnriched (p : LogEvent × Option MetaCols) : EnrichedEvent :=
  ⟨p.1, p.2, categoryOf p.1.operationName⟩

/-- Lines 86-89: the merge followed by the Category column. -/
def enrich (events : List LogEvent) (dir : List ResourceMetadata) :
    List EnrichedEvent :=
  (mergeLeft events dir).map mkEnriched

/-- Lexicographic comparison of character lists by code point, the order
Python uses to compare the string group keys. -/
def leB : List Char → List Char → Bool
  | [], _ => true
  | _ :: _, [] => false
  | c :: cs, d :: ds => if c = d then leB cs ds else decide (c < d)

/-- Ascending string order of the pandas group-key sort (lexicographic by
code point, as Python compares strings). -/
def strLe (a b : String) : Prop :=
  leB a.toList b.toList = true

instance : DecidableRel strLe :=
  fun a b => Bool.decEq (leB a.toList b.toList) true

/-- `df.groupby(col).size().reset_index(name='Count')` (lines 92-94): one
row per distinct key, keys sorted ascending (pandas `groupby` default
`sort=True`), each paired with the number of rows carrying that key. -/
def groupSize {α : Type} (key : α → String) (l : List α) : List (String × Nat) :=
  (List.insertionSort strLe (l.map key).dedup).map
    (fun k => (k, (l.map key).count k))

/-- The three summary tables of lines 92-94. -/
structure Summaries where
  operationSummary : List (String × Nat)
  severitySummary : List (String × Nat)
  resourceSummary : List (String × Nat)
deriving DecidableEq

/-- Lines 92-94: group the merged table by OperationName, Level and
ResourceId. -/
def summarize (l : List EnrichedEvent) : Summaries :=
  ⟨groupSize (fun x => x.event.operationName) l,
   groupSize (fun x => x.event.level) l,
   groupSize (fun x => x.event.resourceId) l⟩

/-- The per-subscription value stored into `analysis_results` (lines
96-101). -/
structure SubscriptionBundle where
  subscriptionLogs : List EnrichedEvent
  operationSummary : List (String × Nat)
  severitySummary : List (String × Nat)
  resourceSummary : List (String × Nat)
deriving DecidableEq

/-- The body of the per-subscription loop of `process_log_data` (lines
78-101). -/
def processOne (subDf : List LogEvent) (dir : List ResourceMetadata) :
    SubscriptionBundle :=
  let enriched := enrich subDf dir
  let s := summarize enriched
  ⟨enriched, s.operationSummary, s.severitySummary, s.resourceSummary⟩

/-- `process_log_data` (lines 75-103): iterates the subscriptions; the
directory fetch (line 83) may raise, and nothing catches it inside the
loop, so the first failure aborts the whole call. -/
def processLogData (logData : List (String × List LogEvent))
    (dirFor : String → Except String (List ResourceMetadata)) :
    Except String (List (String × SubscriptionBundle)) :=
  logData.mapM (fun p => (dirFor p.1).map (fun d => (p.1, processOne p.2 d)))

/-- `main` (lines 35-52): ingest every subscription, then process; the one
outer try/except turns any raised error into a printed message with no
result, so a single subscription failure yields `none` — no partial
per-subscription mapping survives. -/
def mainRun (subs : List String)
    (streamFor : String → Except String (List RawRecord))
    (dirFor : String → Except String (List ResourceMetadata)) :
    Option (List (String × SubscriptionBundle)) :=
  let run : Except String (List (String × SubscriptionBundle)) := do
    let logData ← subs.mapM (fun s => do
      let raw ← streamFor s
      let evs ← ingestSubscriptionLogs raw
      Except.ok (s, evs))
    processLogData logData dirFor
  match run with
  | Except.ok v => some v
  | Except.error _ => none

/-- Sum of the Count column of a summary table. -/
def sumCounts (t : List (String × Nat)) : Nat :=
  (t.map (fun p => p.2)).sum

/-- The key column of a summary table. -/
def keysOf (t : List (String × Nat)) : List String :=
  t.map (fun p => p.1)

/-- Sample event: an Error-level write against resource `res1`. -/
def evErr1 : LogEvent :=
  ⟨"t1", "res1", "OpB/write", "Error", "m1"⟩

/-- Sample event: a second Error-level write against resource `res1`. -/
def evErr2 : LogEvent :=
  ⟨"t2", "res1", "OpB/write", "Error", "m2"⟩

/-- Sample event: an Info-level read against resource `res2`. -/
def evInfo : LogEvent :=
  ⟨"t3", "res2", "OpA/read", "Info", "m3"⟩

/-- First directory entry for `res1`. -/
def rDup1 : ResourceMetadata :=
  ⟨"res1", "rg1", "eastus", []⟩

/-- Second (duplicate-key) directory entry for `res1`. -/
def rDup2 : ResourceMetadata :=
  ⟨"res1", "rg2", "westus", []⟩

/-- A directory holding two entries with the same resourceId. -/
def dirDup : List ResourceMetadata :=
  [rDup1, rDup2]

/-- A duplicate-free directory: `res1` only, so `res2` is unmatched. -/
def dirUniq : List ResourceMetadata :=
  [rDup1]

/-- Sample event list: two `OpB/write` errors and one `OpA/read` info. -/
def sampleEvents : List LogEvent :=
  [evErr1, evErr2, evInfo]

/-- The sample events enriched against an empty directory. -/
def sampleEnriched : List EnrichedEvent :=
  enrich sampleEvents []

/-- A well-formed raw record carrying all four annotation keys. -/
def rawGood : RawRecord :=
  ⟨[(timeKey, "t1"), (ridKey, "res1"), (opKey, "OpB/write"), (levelKey, "Error")], "m1"⟩

/-- A raw record whose annotation mapping lacks `resourceId`. -/
def rawBad : RawRecord :=
  ⟨[(timeKey, "t0"), (opKey, "OpX"), (levelKey, "Info")], "b"⟩

/-- Sample event whose operation name carries no '/' separator. -/
def evNoSlash : LogEvent :=
  ⟨"t4", "res2", "Write", "Info", "m4"⟩

/-- The enriched row `enrich` produces for `evNoSlash` against `dirUniq`. -/
def rowNoSlash : EnrichedEvent :=
  ⟨evNoSlash, none, "Write"⟩

def subA : String := "subA"

def subB : String := "subB"

def dirErrMsg : String := "DirectoryFetchFailure"

/-- Streams that deliver one well-formed record for every subscription. -/
def okStreams : String → Except String (List RawRecord) :=
  fun _ => Except.ok [rawGood]

/-- A directory fetcher that raises for subscription `subA` only. -/
def dirFetchFailsA : String → Except String (List ResourceMetadata) :=
  fun s => if s = subA then Except.error dirErrMsg else Except.ok [rDup1]

theorem leB_total : ∀ x y : List Char, leB x y = true ∨ leB y x = true
  | [], _ => Or.inl rfl
  | _ :: _, [] => Or.inr rfl
  | c :: cs, d :: ds => by
    by_cases h : c = d
    · subst h
      simp only [leB, if_pos rfl]
      exact leB_total cs ds
    · rcases lt_trichotomy c d with hlt | heq | hgt
      · left
        simp [leB, h, hlt]
      · exact absurd heq h
      · right
        simp [leB, Ne.symm h, hgt]

theorem leB_trans : ∀ x y z : List Char,
    leB x y = true → leB y z = true → leB x z = true
  | [], _, _, _, _ => rfl
  | _ :: _, [], _, h, _ => by simp [leB] at h
  | _ :: _, _ :: _, [], _, h => by simp [leB] at h
  | c :: cs, d :: ds, e :: es, h1, h2 => by
    by_cases hcd : c = d <;> by_cases hde : d = e
    · subst hcd
      subst hde
      simp only [leB, if_pos rfl] at h1 h2 ⊢
      exact leB_trans cs ds es h1 h2
    · subst hcd
      simp only [leB, if_pos rfl, if_neg hde] at h2 ⊢
      exact h2
    · subst hde
      simp only [leB, if_neg hcd] at h1 ⊢
      exact h1
    · simp only [leB, if_neg hcd, if_neg hde, decide_eq_true_eq] at h1 h2
      have hce : c < e := lt_trans h1 h2
      simp [leB, ne_of_lt hce, hce]

theorem leB_antisymm : ∀ x y : List Char,
    leB x y = true → leB y x = true → x = y
  | [], [], _, _ => rfl
  | [], _ :: _, _, h => by simp [leB] at h
  | _ :: _, [], h, _ => by simp [leB] at h
  | c :: cs, d :: ds, h1, h2 => by
    by_cases hcd : c = d
    · subst hcd
      simp only [leB, if_pos rfl] at h1 h2
      rw [leB_antisymm cs ds h1 h2]
    · exfalso
      simp only [leB, if_neg hcd, if_neg (Ne.symm hcd), decide_eq_true_eq] at h1 h2
      exact lt_asymm h1 h2

instance : IsTotal String strLe :=
  ⟨fun a b => leB_total a.toList b.toList⟩

instance : IsTrans String strLe :=
  ⟨fun a b c => leB_trans a.toList b.toList c.toList⟩

instance : IsAntisymm String strLe :=
  ⟨fun a b h1 h2 => String.toList_inj.mp (leB_antisymm a.toList b.toList h1 h2)⟩

theorem pySplit_ne_nil (sep : Char) (l : List Char) : pySplit sep l ≠ [] := by
  cases l with
  | nil => simp [pySplit]
  | cons c cs =>
    unfold pySplit
    split
    · exact List.cons_ne_nil _ _
    · split
      · exact List.cons_ne_nil _ _
      · exact List.cons_ne_nil _ _

theorem headI_pySplit (sep : Char) :
    ∀ l : List Char, (pySplit sep l).headI = l.takeWhile (fun c => c != sep)
  | [] => rfl
  | c :: cs => by
    unfold pySplit
    by_cases h : c = sep
    · subst h
      simp [List.takeWhile_cons]
    · rw [if_neg h]
      have hne := pySplit_ne_nil sep cs
      have ih := headI_pySplit sep cs
      cases hps : pySplit sep cs with
      | nil => exact absurd hps hne
      | cons g gs =>
        rw [hps] at ih
        simp only [List.headI] at ih ⊢
        simp [List.takeWhile_cons, h, ih]

theorem categoryOf_toList (s : String) :
    (categoryOf s).toList = s.toList.takeWhile (fun c => c != '/') :=
  headI_pySplit '/' s.toList

theorem categoryOf_of_no_slash (s : String) (h : '/' ∉ s.toList) :
    categoryOf s = s := by
  apply String.toList_inj.mp
  rw [categoryOf_toList]
  exact List.takeWhile_eq_self_iff.mpr (fun x hx => by
    simp only [bne_iff_ne, ne_eq]
    exact fun hx2 => h (hx2 ▸ hx))

theorem mem_rowsFor_fst {e : LogEvent} {dir : List ResourceMetadata}
    {p : LogEvent × Option MetaCols} (h : p ∈ rowsFor e dir) : p.1 = e := by
  simp only [rowsFor] at h
  split at h
  · rw [List.mem_singleton] at h
    rw [h]
  · rw [List.mem_map] at h
    obtain ⟨r, _, hr⟩ := h
    rw [← hr]

theorem rowsFor_length (e : LogEvent) (dir : List ResourceMetadata) :
    (rowsFor e dir).length =
      max (dir.countP (fun r => r.resourceId == e.resourceId)) 1 := by
  simp only [rowsFor, List.countP_eq_length_filter]
  by_cases hms : (dir.filter (fun r => r.resourceId == e.resourceId)).isEmpty
  · rw [if_pos hms]
    rw [List.isEmpty_iff] at hms
    simp [hms]
  · rw [if_neg hms, List.length_map]
    have hpos : 0 < (dir.filter (fun r => r.resourceId == e.resourceId)).length := by
      rcases Nat.eq_zero_or_pos (dir.filter (fun r => r.resourceId == e.resourceId)).length with h0 | h0
      · exact absurd (List.isEmpty_iff.mpr (List.eq_nil_of_length_eq_zero h0)) hms
      · exact h0
    exact (Nat.max_eq_left hpos).symm

theorem rowsFor_unmatched (e : LogEvent) (dir : List ResourceMetadata)
    (h : ∀ r ∈ dir, r.resourceId ≠ e.resourceId) :
    rowsFor e dir = [(e, none)] := by
  have hf : dir.filter (fun r => r.resourceId == e.resourceId) = [] :=
    List.filter_eq_nil_iff.mpr (fun a ha => by simp [h a ha])
  simp [rowsFor, hf]

theorem mem_mergeLeft : ∀ (events : List LogEvent) (dir : List ResourceMetadata)
    (p : LogEvent × Option MetaCols),
    (p ∈ mergeLeft events dir ↔ ∃ e, e ∈ events ∧ p ∈ rowsFor e dir)
  | [], _, p => by simp [mergeLeft]
  | e :: es, dir, p => by
    simp only [mergeLeft, List.mem_append, mem_mergeLeft es dir p, List.mem_cons]
    constructor
    · rintro (h | ⟨a, ha, hp⟩)
      · exact ⟨e, Or.inl rfl, h⟩
      · exact ⟨a, Or.inr ha, hp⟩
    · rintro ⟨a, (rfl | ha), hp⟩
      · exact Or.inl hp
      · exact Or.inr ⟨a, ha, hp⟩

theorem filter_rid_le_one (x : String) :
    ∀ dir : List ResourceMetadata,
    (dir.map (fun r => r.resourceId)).Nodup →
    (dir.filter (fun r => r.resourceId == x)).length ≤ 1
  | [], _ => by simp
  | r :: dir, h => by
    simp only [List.map_cons, List.nodup_cons] at h
    obtain ⟨hnotmem, hnd⟩ := h
    by_cases hr : (r.resourceId == x) = true
    · have hf : dir.filter (fun a => a.resourceId == x) = [] := by
        apply List.filter_eq_nil_iff.mpr
        intro a ha hax
        apply hnotmem
        have hax2 : a.resourceId = x := by simpa using hax
        have hrx : r.resourceId = x := by simpa using hr
        rw [hrx, ← hax2]
        exact List.mem_map_of_mem _ ha
      simp [List.filter_cons, hr, hf]
    · simp only [List.filter_cons, hr, if_false]
      exact filter_rid_le_one x dir hnd

theorem rowsFor_map_fst_of_nodup (e : LogEvent) (dir : List ResourceMetadata)
    (h : (dir.map (fun r => r.resourceId)).Nodup) :
    (rowsFor e dir).map Prod.fst = [e] := by
  have hle := filter_rid_le_one e.resourceId dir h
  cases hf : dir.filter (fun r => r.resourceId == e.resourceId) with
  | nil => simp [rowsFor, hf]
  | cons a tl =>
    rw [hf] at hle
    have hlen : tl.length = 0 := by
      simp only [List.length_cons] at hle
      omega
    have htl : tl = [] := List.eq_nil_of_length_eq_zero hlen
    subst htl
    simp [rowsFor, hf]

theorem mergeLeft_map_fst_of_nodup :
    ∀ (events : List LogEvent) (dir : List ResourceMetadata),
    (dir.map (fun r => r.resourceId)).Nodup →
    (mergeLeft events dir).map Prod.fst = events
  | [], _, _ => rfl
  | e :: es, dir, h => by
    simp only [mergeLeft, List.map_append, rowsFor_map_fst_of_nodup e dir h,
      mergeLeft_map_fst_of_nodup es dir h, List.singleton_append]

theorem mergeLeft_length : ∀ (events : List LogEvent) (dir : List ResourceMetadata),
    (mergeLeft events dir).length =
      (events.map
        (fun e => max (dir.countP (fun r => r.resourceId == e.resourceId)) 1)).sum
  | [], _ => rfl
  | e :: es, dir => by
    simp only [mergeLeft, List.length_append, rowsFor_length,
      mergeLeft_length es dir, List.map_cons, List.sum_cons]

theorem groupSize_sum {α : Type} (key : α → String) (l : List α) :
    ((groupSize key l).map (fun p => p.2)).sum = l.length := by
  unfold groupSize
  rw [List.map_map]
  have h2 : ((List.insertionSort strLe (l.map key).dedup).map
      (fun k => (l.map key).count k)).sum
      = (((l.map key).dedup).map (fun k => (l.map key).count k)).sum :=
    ((List.perm_insertionSort strLe ((l.map key).dedup)).map
      (fun k => (l.map key).count k)).sum_eq
  exact h2.trans ((List.sum_map_count_dedup_eq_length (l.map key)).trans
    (List.length_map l key))

theorem groupSize_perm {α : Type} (key : α → String) {l l' : List α}
    (h : l.Perm l') : groupSize key l = groupSize key l' := by
  unfold groupSize
  have hm : (l.map key).Perm (l'.map key) := h.map key
  have hs : List.insertionSort strLe (l.map key).dedup =
      List.insertionSort strLe (l'.map key).dedup :=
    List.eq_of_perm_of_sorted
      ((List.perm_insertionSort _ _).trans
        (hm.dedup.trans (List.perm_insertionSort _ _).symm))
      (List.sorted_insertionSort _ _) (List.sorted_insertionSort _ _)
  have hc : (fun k => (k, (l.map key).count k))
      = (fun k => (k, (l'.map key).count k)) :=
    funext (fun k => by rw [hm.count_eq])
  rw [hs, hc]

theorem groupSize_keys_sorted {α : Type} (key : α → String) (l : List α) :
    List.Sorted strLe ((groupSize key l).map (fun p => p.1)) ∧
    ((groupSize key l).map (fun p => p.1)).Nodup := by
  unfold groupSize
  rw [List.map_map]
  have hid : ((fun p : String × Nat => p.1) ∘ fun k => (k, (l.map key).count k))
      = id := rfl
  rw [hid, List.map_id]
  exact ⟨List.sorted_insertionSort _ _,
    (List.perm_insertionSort strLe ((l.map key).dedup)).nodup_iff.mpr
      (List.nodup_dedup _)⟩

/-- C1 counterexample: against a directory holding two entries for `res1`,
the left merge emits two rows for the single matching event, so enrichment
does not preserve length for every resource directory. -/
theorem C1_counterexample :
    (enrich [evErr1] dirDup).length ≠ ([evErr1] : List LogEvent).length := by
  decide

/-- C1 (amended): for every event sequence and every directory without
duplicate resourceIds, `enrich` returns one output row per input event (the
length is preserved and no event is dropped), and a row whose resourceId
matches no directory entry carries null metadata. -/
theorem C1_enrich_preserves_events
    (events : List LogEvent) (dir : List ResourceMetadata)
    (h : (dir.map (fun r => r.resourceId)).Nodup) :
    (enrich events dir).length = events.length ∧
    ∀ row ∈ enrich events dir,
      (∀ r ∈ dir, r.resourceId ≠ row.event.resourceId) → row.meta = none := by
  constructor
  · have hfst := mergeLeft_map_fst_of_nodup events dir h
    calc (enrich events dir).length
        = (mergeLeft events dir).length := List.length_map _ _
      _ = ((mergeLeft events dir).map Prod.fst).length := (List.length_map _ _).symm
      _ = events.length := by rw [hfst]
  · intro row hrow hun
    unfold enrich at hrow
    rw [List.mem_map] at hrow
    obtain ⟨p, hp, hpe⟩ := hrow
    obtain ⟨e, _, hpr⟩ := (mem_mergeLeft events dir p).mp hp
    have hfst : p.1 = e := mem_rowsFor_fst hpr
    subst hpe
    have hun2 : ∀ r ∈ dir, r.resourceId ≠ e.resourceId := by
      intro r hr
      have hu := hun r hr
      rw [show (mkEnriched p).event = p.1 from rfl, hfst] at hu
      exact hu
    rw [rowsFor_unmatched e dir hun2, List.mem_singleton] at hpr
    rw [hpr]
    rfl

/-- C1 witness: the amended theorem applied to the sample events and the
duplicate-free directory. -/
theorem C1_enrich_preserves_events_witness :
    ((dirUniq.map (fun r => r.resourceId)).Nodup) ∧
    ((enrich sampleEvents dirUniq).length = sampleEvents.length ∧
      ∀ row ∈ enrich sampleEvents dirUniq,
        (∀ r ∈ dirUniq, r.resourceId ≠ row.event.resourceId) →
          row.meta = none) :=
  ⟨by decide, C1_enrich_preserves_events sampleEvents dirUniq (by decide)⟩

/-- C2: when subscription `subA`'s directory fetch raises and `subB`'s
succeeds, the single outer try/except of `main` aborts the whole run: no
per-subscription mapping is produced at all (in particular no bundle for
`subB`), although `subB` alone processes fine. The code diverges from the
claimed per-subscription failure isolation. -/
theorem C2_mainRun_aborts_on_single_failure :
    mainRun [subA, subB] okStreams dirFetchFailsA = none ∧
    mainRun [subB] okStreams dirFetchFailsA
      = some [(subB, processOne [evErr1] [rDup1])] := by
  constructor
  · decide
  · decide

theorem ingest_replicate :
    ∀ k : Nat, ingestSubscriptionLogs (List.replicate k rawGood)
      = Except.ok (List.replicate k evErr1)
  | 0 => rfl
  | k + 1 => by
    have ih := ingest_replicate k
    simp only [ingestSubscriptionLogs] at ih ⊢
    rw [List.replicate_succ, List.mapM_cons,
      show onEvent rawGood = Except.ok evErr1 from rfl, ih, List.replicate_succ]
    rfl

/-- C3: the code's collector carries no time or item-count budget — it
consumes the entire delivered stream, so for every bound `n` there is a
stream on which it accumulates more than `n` events. The claimed bounded
termination does not exist in the code (`receive` is called with no
budget and blocks on a live feed). -/
theorem C3_collector_has_no_budget :
    ∀ n : Nat, ∃ stream : List RawRecord, ∃ evs : List LogEvent,
      ingestSubscriptionLogs stream = Except.ok evs ∧ n < evs.length := by
  intro n
  refine ⟨List.replicate (n + 1) rawGood, List.replicate (n + 1) evErr1,
    ingest_replicate (n + 1), ?_⟩
  rw [List.length_replicate]
  omega

/-- C4 counterexample: ingesting a record lacking `resourceId` followed by
a well-formed record raises a key error naming `resourceId` and yields no
event table at all — the bad record is not skip-and-counted and the
well-formed successor contributes nothing, although it normalizes fine on
its own. -/
theorem C4_counterexample :
    ingestSubscriptionLogs [rawBad, rawGood] = Except.error ridKey ∧
    onEvent rawGood = Except.ok evErr1 :=
  ⟨rfl, rfl⟩

/-- C4 (amended): a raw record whose mapping lacks timestamp, resourceId,
or operationName makes normalization raise a key error naming a missing
field and contributes no LogEvent; the error is not caught, so any stream
containing such a record yields an error rather than a table — ingestion
does not skip, count and continue. -/
theorem C4_missing_field_raises (r : RawRecord)
    (h : r.attrs.lookup timeKey = none ∨ r.attrs.lookup ridKey = none ∨
      r.attrs.lookup opKey = none) :
    (∃ k, onEvent r = Except.error k ∧ r.attrs.lookup k = none) ∧
    ∀ recs : List RawRecord, r ∈ recs →
      ∃ k, ingestSubscriptionLogs recs = Except.error k := by
  have hone : ∃ k, onEvent r = Except.error k ∧ r.attrs.lookup k = none := by
    cases ht : r.attrs.lookup timeKey with
    | none =>
      refine ⟨timeKey, ?_, ht⟩
      unfold onEvent getAttr
      rw [ht]
      rfl
    | some v =>
      cases hr : r.attrs.lookup ridKey with
      | none =>
        refine ⟨ridKey, ?_, hr⟩
        unfold onEvent getAttr
        rw [ht, hr]
        rfl
      | some w =>
        cases ho : r.attrs.lookup opKey with
        | none =>
          refine ⟨opKey, ?_, ho⟩
          unfold onEvent getAttr
          rw [ht, hr, ho]
          rfl
        | some u =>
          exfalso
          rcases h with h1 | h2 | h3
          · rw [ht] at h1
            cases h1
          · rw [hr] at h2
            cases h2
          · rw [ho] at h3
            cases h3
  refine ⟨hone, ?_⟩
  obtain ⟨k0, hk0, _⟩ := hone
  intro recs hmem
  induction recs with
  | nil => cases hmem
  | cons a tl ih =>
    rw [List.mem_cons] at hmem
    unfold ingestSubscriptionLogs
    rw [List.mapM_cons]
    rcases hmem with rfl | hmem2
    · rw [hk0]
      exact ⟨k0, rfl⟩
    · cases ha : onEvent a with
      | error ek =>
        exact ⟨ek, rfl⟩
      | ok x =>
        obtain ⟨k, hk⟩ := ih hmem2
        have hk2 : List.mapM onEvent tl = Except.error k := hk
        refine ⟨k, ?_⟩
        show (List.mapM onEvent tl >>= fun xs => pure (x :: xs))
          = Except.error k
        rw [hk2]
        rfl

/-- C4 witness: the amended theorem applied to the concrete record lacking
`resourceId`. -/
theorem C4_missing_field_raises_witness :
    (rawBad.attrs.lookup timeKey = none ∨ rawBad.attrs.lookup ridKey = none ∨
      rawBad.attrs.lookup opKey = none) ∧
    ((∃ k, onEvent rawBad = Except.error k ∧ rawBad.attrs.lookup k = none) ∧
      ∀ recs : List RawRecord, rawBad ∈ recs →
        ∃ k, ingestSubscriptionLogs recs = Except.error k) :=
  ⟨Or.inr (Or.inl rfl), C4_missing_field_raises rawBad (Or.inr (Or.inl rfl))⟩

/-- C5 counterexample: on the sample events, the operation summary comes
out as [(OpA-read, 1), (OpB-write, 2)] — its Count column is increasing,
so the table is not sorted by descending count under any tie-break; pandas
`groupby` orders by ascending key instead. -/
theorem C5_counterexample :
    ¬ List.Pairwise (fun p q : String × Nat => q.2 ≤ p.2)
      ((summarize sampleEnriched).operationSummary) := by
  decide

/-- C5 (amended): each of the three summary tables is ordered by ascending
group key (lexicographic string order), with exactly one row per distinct
key; it is not ordered by descending count. -/
theorem C5_summaries_sorted_by_key (l : List EnrichedEvent) :
    (List.Sorted strLe (keysOf (summarize l).operationSummary) ∧
      (keysOf (summarize l).operationSummary).Nodup) ∧
    (List.Sorted strLe (keysOf (summarize l).severitySummary) ∧
      (keysOf (summarize l).severitySummary).Nodup) ∧
    (List.Sorted strLe (keysOf (summarize l).resourceSummary) ∧
      (keysOf (summarize l).resourceSummary).Nodup) :=
  ⟨groupSize_keys_sorted _ l, groupSize_keys_sorted _ l,
    groupSize_keys_sorted _ l⟩

/-- C6 counterexample: a directory with two entries for `res1` makes the
left merge attach both entries' metadata to the single matching event —
two rows, the first carrying the first entry's metadata — instead of one
last-wins attachment. -/
theorem C6_counterexample :
    (enrich [evErr1] dirDup).map (fun x => x.meta)
      = [some (metaOf rDup1), some (metaOf rDup2)] ∧
    (enrich [evErr1] dirDup).length ≠ 1 := by
  decide

/-- C6 (amended): the merge performs a relational join, not a last-wins
keyed lookup: each event is joined with every directory entry sharing its
resourceId (in directory order), so the output holds, for each event, one
row per matching entry — max(1, number of matches) rows, counting the
single null-metadata row of an unmatched event. -/
theorem C6_duplicate_keys_multiply_rows (events : List LogEvent)
    (dir : List ResourceMetadata) :
    (enrich events dir).length =
      (events.map
        (fun e => max (dir.countP (fun r => r.resourceId == e.resourceId)) 1)).sum := by
  unfold enrich
  rw [List.length_map]
  exact mergeLeft_length events dir

/-- C7: within each grouping dimension, the group counts of the three
summaries sum to the number of rows of the summarized table. -/
theorem C7_counts_sum_to_length (l : List EnrichedEvent) :
    sumCounts (summarize l).operationSummary = l.length ∧
    sumCounts (summarize l).severitySummary = l.length ∧
    sumCounts (summarize l).resourceSummary = l.length :=
  ⟨groupSize_sum _ l, groupSize_sum _ l, groupSize_sum _ l⟩

/-- C8: summarization is permutation-invariant — a permuted copy of the
event table yields the same three summary tables, contents and row order
identical. -/
theorem C8_summarize_perm_invariant (l l' : List EnrichedEvent)
    (h : l.Perm l') : summarize l = summarize l' := by
  unfold summarize
  rw [groupSize_perm (fun x => x.event.operationName) h,
    groupSize_perm (fun x => x.event.level) h,
    groupSize_perm (fun x => x.event.resourceId) h]

/-- C8 witness: the theorem applied to the sample table and its reverse. -/
theorem C8_summarize_perm_invariant_witness :
    sampleEnriched.Perm sampleEnriched.reverse ∧
    summarize sampleEnriched = summarize sampleEnriched.reverse :=
  ⟨by decide, C8_summarize_perm_invariant _ _ (by decide)⟩

/-- C9: every enriched row's Category is the prefix of its OperationName
before the first '/', and equals the whole OperationName when no '/'
occurs in it. -/
theorem C9_category_before_first_slash (events : List LogEvent)
    (dir : List ResourceMetadata) :
    ∀ row ∈ enrich events dir,
      row.category.toList
        = row.event.operationName.toList.takeWhile (fun c => c != '/') ∧
      ('/' ∉ row.event.operationName.toList →
        row.category = row.event.operationName) := by
  intro row hrow
  unfold enrich at hrow
  rw [List.mem_map] at hrow
  obtain ⟨p, _, hpe⟩ := hrow
  subst hpe
  exact ⟨categoryOf_toList _, fun h => categoryOf_of_no_slash _ h⟩

/-- C9 witness: the theorem applied to the slash-free sample event. -/
theorem C9_category_before_first_slash_witness :
    rowNoSlash ∈ enrich [evNoSlash] dirUniq ∧
    ('/' ∉ rowNoSlash.event.operationName.toList) ∧
    rowNoSlash.category.toList
      = rowNoSlash.event.operationName.toList.takeWhile (fun c => c != '/') ∧
    rowNoSlash.category = rowNoSlash.event.operationName :=
  ⟨by decide, by decide,
    (C9_category_before_first_slash [evNoSlash] dirUniq rowNoSlash (by decide)).1,
    (C9_category_before_first_slash [evNoSlash] dirUniq rowNoSlash (by decide)).2
      (by decide)⟩

/-- C10: against a duplicate-free directory, enrichment is a per-event
frame extension: projecting the event column of the output returns the
input list itself — the five original field values and the relative order
are untouched, and only the metadata and Category columns are added. -/
theorem C10_enrich_preserves_fields_and_order (events : List LogEvent)
    (dir : List ResourceMetadata)
    (h : (dir.map (fun r => r.resourceId)).Nodup) :
    (enrich events dir).map (fun row => row.event) = events := by
  unfold enrich
  rw [List.map_map]
  have hcomp : ((fun row : EnrichedEvent => row.event) ∘ mkEnriched)
      = Prod.fst := rfl
  rw [hcomp]
  exact mergeLeft_map_fst_of_nodup events dir h

/-- C10 witness: the theorem applied to the sample events and the
duplicate-free directory. -/
theorem C10_enrich_preserves_fields_and_order_witness :
    ((dirUniq.map (fun r => r.resourceId)).Nodup) ∧
    (enrich sampleEvents dirUniq).map (fun row => row.event) = sampleEvents :=
  ⟨by decide,
    C10_enrich_preserves_fields_and_order sampleEvents dirUniq (by decide)⟩
